import Mathlib

/-!
Verification of the chunked-upload / direct-upload hooks.

The development shallowly embeds the pure logic of the two source files
(the chunk-upload composable and the direct-upload composable):

* fee and size arithmetic of the chunked upload flow,
* greedy UTXO selection (getWalletUTXOs),
* the merge transaction build and its output-matching loop,
* the open pre-transaction builders (buildChunkFundingPreTx, buildIndexPreTx),
* the resumable multipart OSS upload (uploadFileToOSS) with its
  localStorage session bookkeeping (getUploadSession),
* task status classification (getStatusClass),
* the synchronous-path progress interpolation timer, and
* the top-level error handling of runChunkedUploadFlow.

External collaborators (the mvc transaction library primitives, the wallet,
HTTP transport) are declared out of scope by the specification; they are
modelled as abstract data (a small Script inductive, response inductives)
or passed in as function parameters (signing, serialization, payment),
exactly at the call interface the source uses.
-/

/-! ## Script model (external mvc library interface) -/

/-- Model of a locking or unlocking script.  The real script bytes are
produced by the external mvc library; the model only distinguishes the
three shapes the source constructs or inspects. -/
inductive Script where
  | raw : String → Script
  | p2pkhOut : String → Script
  | p2pkhIn : String → String → ℕ → Script
deriving DecidableEq

/-- Model of script serialization (external primitive `script.toHex()`). -/
def Script.toHex : Script → String
  | .raw h => h
  | .p2pkhOut a => "p2pkhOut." ++ a
  | .p2pkhIn pk sig ty => "p2pkhIn." ++ pk ++ "." ++ sig ++ "." ++ toString ty

/-- Model of `script.toAddress(network)`: recovers the address of a
pay-to-public-key-hash output script, and fails (the source catches the
throw and continues) on any other script shape. -/
def Script.toAddress : Script → Option String
  | .p2pkhOut a => some a
  | _ => none

/-- Model of `mvc.Script.buildPublicKeyHashOut(address)`. -/
def buildPublicKeyHashOut (address : String) : Script :=
  .p2pkhOut address

/-- Model of `mvc.Script.buildPublicKeyHashIn(publicKey, sigDER, sigtype)`. -/
def buildPublicKeyHashIn (publicKey sigDER : String) (sigtype : ℕ) : Script :=
  .p2pkhIn publicKey sigDER sigtype

/-! ## UTXO selection (getWalletUTXOs) -/

/-- A wallet UTXO as returned by `window.metaidwallet.getUtxos()`. -/
structure WalletUtxo where
  txid : String
  outIndex : ℕ
  address : String
  value : ℤ
deriving DecidableEq

/-- A selected funding UTXO as the source rebuilds it (with a script hex
derived from the address). -/
structure SelectedUtxo where
  txId : String
  outputIndex : ℕ
  script : String
  satoshis : ℤ
deriving DecidableEq

/-- The selection result `{utxos, totalAmount}`. -/
structure UtxoData where
  utxos : List SelectedUtxo
  totalAmount : ℤ
deriving DecidableEq

/-- The three failure modes of `getWalletUTXOs`: empty wallet, all UTXOs at
or below the dust threshold, and insufficient accumulated balance
(carrying needed and available amounts). -/
inductive UtxoFailure where
  | noUtxos : UtxoFailure
  | noDustFree : UtxoFailure
  | insufficientBalance : ℤ → ℤ → UtxoFailure
deriving DecidableEq

/-- Sum of the `value` fields of a list of wallet UTXOs. -/
def sumValues (l : List WalletUtxo) : ℤ :=
  (l.map (fun u => u.value)).sum

/-- The per-UTXO conversion the selection loop performs. -/
def mkSelectedUtxo (u : WalletUtxo) : SelectedUtxo :=
  { txId := u.txid
    outputIndex := u.outIndex
    script := (buildPublicKeyHashOut u.address).toHex
    satoshis := u.value }

/-- The greedy accumulation loop of `getWalletUTXOs`: push each UTXO and
its value, and stop as soon as the running total reaches
`requiredAmount + 1`. -/
def greedySelect (requiredAmount : ℤ) : List WalletUtxo → List SelectedUtxo → ℤ → List SelectedUtxo × ℤ
  | [], accSel, accTotal => (accSel, accTotal)
  | u :: rest, accSel, accTotal =>
    let accSel' := accSel ++ [mkSelectedUtxo u]
    let accTotal' := accTotal + u.value
    if requiredAmount + 1 ≤ accTotal' then (accSel', accTotal')
    else greedySelect requiredAmount rest accSel' accTotal'

/-- `getWalletUTXOs(requiredAmount)`: filter out dust (value at or below
600), sort descending by value, greedily accumulate until the total
reaches `requiredAmount + 1`, and fail if it never does. -/
def getWalletUTXOs (utxos : List WalletUtxo) (requiredAmount : ℤ) : Except UtxoFailure UtxoData :=
  if utxos.isEmpty then .error .noUtxos
  else
    let fillerUtxos := utxos.filter (fun u => 600 < u.value)
    if fillerUtxos.isEmpty then .error .noDustFree
    else
      let sortedUtxos := fillerUtxos.insertionSort (fun a b => b.value ≤ a.value)
      let sel := greedySelect requiredAmount sortedUtxos [] 0
      if sel.2 < requiredAmount + 1 then .error (.insufficientBalance (requiredAmount + 1) sel.2)
      else .ok { utxos := sel.1, totalAmount := sel.2 }

/-- Whether a selection outcome is specifically the insufficient-balance
failure. -/
def isInsufficientErr : Except UtxoFailure UtxoData → Bool
  | .error (.insufficientBalance _ _) => true
  | _ => false

/-- Whether a selection outcome is a success. -/
def isOkResult : Except UtxoFailure UtxoData → Bool
  | .ok _ => true
  | .error _ => false

/-! ## Fee arithmetic of runChunkedUploadFlow (lines 176 to 201) -/

/-- JavaScript `chainStore.mvcFeeRate() || 1`: a missing (falsy) or zero
rate defaults to 1. -/
def feeRateOr1 (rate : Option ℚ) : ℚ :=
  match rate with
  | none => 1
  | some r => if r = 0 then 1 else r

/-- The fee quantities runChunkedUploadFlow derives before building the
merge transaction. -/
structure FlowFees where
  feeRate : ℚ
  chunkPreTxBuildFee : ℤ
  indexPreTxBuildFee : ℤ
  chunkPreTxOutputAmount : ℤ
  indexPreTxOutputAmount : ℤ
  mergeTxFee : ℤ
  totalRequiredAmount : ℤ
deriving DecidableEq

/-- The fee computation block of runChunkedUploadFlow, given the backend
estimates `chunkPreTxFee` and `indexPreTxFee` and the chain store rate. -/
def computeFlowFees (chunkPreTxFee indexPreTxFee : ℤ) (rate : Option ℚ) : FlowFees :=
  let preTxBaseSize : ℚ := 200
  let preTxInputSize : ℚ := 150
  let feeRate := feeRateOr1 rate
  let chunkPreTxSize := preTxBaseSize + preTxInputSize
  let chunkPreTxBuildFee : ℤ := ⌈chunkPreTxSize * feeRate⌉
  let indexPreTxSize := preTxBaseSize + preTxInputSize
  let indexPreTxBuildFee : ℤ := ⌈indexPreTxSize * feeRate⌉
  let chunkPreTxOutputAmount := chunkPreTxFee + chunkPreTxBuildFee
  let indexPreTxOutputAmount := indexPreTxFee + indexPreTxBuildFee
  let mergeTxBaseSize : ℚ := 200
  let mergeTxInputSize : ℚ := 150
  let mergeTxOutputSize : ℚ := 34
  let estimatedMergeTxInputs : ℚ := 2
  let mergeTxSize := mergeTxBaseSize + mergeTxInputSize * estimatedMergeTxInputs + mergeTxOutputSize * 2
  let mergeTxFee : ℤ := ⌈mergeTxSize * feeRate⌉
  { feeRate := feeRate
    chunkPreTxBuildFee := chunkPreTxBuildFee
    indexPreTxBuildFee := indexPreTxBuildFee
    chunkPreTxOutputAmount := chunkPreTxOutputAmount
    indexPreTxOutputAmount := indexPreTxOutputAmount
    mergeTxFee := mergeTxFee
    totalRequiredAmount := chunkPreTxOutputAmount + indexPreTxOutputAmount + mergeTxFee }

/-! ## Transaction model -/

/-- A transaction input as the source constructs it through `tx.from`. -/
structure TxInput where
  txId : String
  outputIndex : ℕ
  script : Script
  satoshis : ℤ
deriving DecidableEq

/-- A transaction output. -/
structure TxOutput where
  script : Script
  satoshis : ℤ
deriving DecidableEq

/-- A transaction: version plus input and output lists. -/
structure Tx where
  version : ℤ
  inputs : List TxInput
  outputs : List TxOutput
deriving DecidableEq

/-- `tx.from(utxo)` conversion of a selected UTXO to an input. -/
def mkTxInput (u : SelectedUtxo) : TxInput :=
  { txId := u.txId, outputIndex := u.outputIndex, script := .raw u.script, satoshis := u.satoshis }

/-- The request object passed to `window.metaidwallet.signTransaction`. -/
structure SignRequest where
  txHex : String
  address : String
  inputIndex : ℕ
  scriptHex : String
  satoshis : ℤ
  sigtype : ℕ
deriving DecidableEq

/-- The wallet signing response `{signature: {sig, publicKey}}`. -/
structure SignResult where
  sig : String
  publicKey : String
deriving DecidableEq

/-- The sighash mode both pre-transaction builders request:
SIGHASH_NONE combined with SIGHASH_ANYONECANPAY. -/
def sighashNoneAnyoneCanPay : ℕ := 0x2 ||| 0x40

/-- `tx.inputs[i].setScript(s)`. -/
def setInputScript : List TxInput → ℕ → Script → List TxInput
  | [], _, _ => []
  | inp :: rest, 0, s => { inp with script := s } :: rest
  | inp :: rest, n + 1, s => inp :: setInputScript rest n s

/-- The signing loop shared by buildChunkFundingPreTx and buildIndexPreTx:
for each input, request a wallet signature over the current serialized
transaction with sighash mode SIGHASH_NONE OR SIGHASH_ANYONECANPAY, build
the P2PKH unlocking script from the returned signature and public key and
splice it into the input.  Returns the final transaction together with
the list of signature requests issued. -/
def signPreTxInputs (sign : SignRequest → SignResult) (toDER : String → String)
    (serialize : Tx → String) (address : String) :
    List SelectedUtxo → ℕ → Tx → List SignRequest → Tx × List SignRequest
  | [], _, tx, acc => (tx, acc.reverse)
  | u :: rest, i, tx, acc =>
    let req : SignRequest :=
      { txHex := serialize tx
        address := address
        inputIndex := i
        scriptHex := u.script
        satoshis := u.satoshis
        sigtype := sighashNoneAnyoneCanPay }
    let res := sign req
    let unlockingScript := buildPublicKeyHashIn res.publicKey (toDER res.sig) sighashNoneAnyoneCanPay
    let tx' : Tx := { tx with inputs := setInputScript tx.inputs i unlockingScript }
    signPreTxInputs sign toDER serialize address rest (i + 1) tx' (req :: acc)

/-- buildChunkFundingPreTx, instrumented: the built transaction (version
10, one input per UTXO, no outputs, each input signed open) together with
the signature requests issued.  `totalChunkFee` is accepted and unused,
as in the source. -/
def buildChunkFundingPreTxTrace (sign : SignRequest → SignResult) (toDER : String → String)
    (serialize : Tx → String) (address : String) (utxoData : UtxoData)
    (totalChunkFee : ℤ) : Tx × List SignRequest :=
  let tx : Tx := { version := 10, inputs := utxoData.utxos.map mkTxInput, outputs := [] }
  signPreTxInputs sign toDER serialize address utxoData.utxos 0 tx []

/-- buildChunkFundingPreTx: the serialized hex the source returns. -/
def buildChunkFundingPreTx (sign : SignRequest → SignResult) (toDER : String → String)
    (serialize : Tx → String) (address : String) (utxoData : UtxoData)
    (totalChunkFee : ℤ) : String :=
  serialize (buildChunkFundingPreTxTrace sign toDER serialize address utxoData totalChunkFee).1

/-- buildIndexPreTx, instrumented; the body is identical to
buildChunkFundingPreTx in the source.  `indexFee` is accepted and
unused. -/
def buildIndexPreTxTrace (sign : SignRequest → SignResult) (toDER : String → String)
    (serialize : Tx → String) (address : String) (utxoData : UtxoData)
    (indexFee : ℤ) : Tx × List SignRequest :=
  let tx : Tx := { version := 10, inputs := utxoData.utxos.map mkTxInput, outputs := [] }
  signPreTxInputs sign toDER serialize address utxoData.utxos 0 tx []

/-- buildIndexPreTx: the serialized hex the source returns. -/
def buildIndexPreTx (sign : SignRequest → SignResult) (toDER : String → String)
    (serialize : Tx → String) (address : String) (utxoData : UtxoData)
    (indexFee : ℤ) : String :=
  serialize (buildIndexPreTxTrace sign toDER serialize address utxoData indexFee).1

/-! ## Merge transaction output matching (buildChunkedUploadMergeTx) -/

/-- Mutable state of the output-matching loop: the two output indices
(initially -1) and the two captured script hexes (initially null). -/
structure MatchState where
  chunkPreTxOutputIndex : ℤ
  indexPreTxOutputIndex : ℤ
  chunkPreTxScript : Option String
  indexPreTxScript : Option String
deriving DecidableEq

/-- Whether an output pays to the given address, as the source tests with
`output.script.toAddress(...)` under a try/catch. -/
def isAddrMatch (userAddress : String) (o : TxOutput) : Bool :=
  match o.script.toAddress with
  | some a => a = userAddress
  | none => false

/-- The amount tolerance used when locating the two funding outputs. -/
def amountTolerance : ℕ := 1000

/-- One iteration of the output-matching loop at output index `i`. -/
def matchStep (userAddress : String) (chunkAmt indexAmt : ℤ) (i : ℕ) (o : TxOutput)
    (st : MatchState) : MatchState :=
  match o.script.toAddress with
  | none => st
  | some addr =>
    if addr = userAddress then
      if st.chunkPreTxOutputIndex = -1 ∧ (o.satoshis - chunkAmt).natAbs ≤ amountTolerance then
        { st with chunkPreTxOutputIndex := (i : ℤ), chunkPreTxScript := some o.script.toHex }
      else if st.indexPreTxOutputIndex = -1 ∧ (o.satoshis - indexAmt).natAbs ≤ amountTolerance then
        { st with indexPreTxOutputIndex := (i : ℤ), indexPreTxScript := some o.script.toHex }
      else st
    else st

/-- The output-matching loop over the parsed merge transaction outputs. -/
def matchLoop (userAddress : String) (chunkAmt indexAmt : ℤ) :
    List TxOutput → ℕ → MatchState → MatchState
  | [], _, st => st
  | o :: rest, i, st =>
    matchLoop userAddress chunkAmt indexAmt rest (i + 1) (matchStep userAddress chunkAmt indexAmt i o st)

/-- The initial match state: both indices -1, both scripts null. -/
def initialMatchState : MatchState :=
  { chunkPreTxOutputIndex := -1
    indexPreTxOutputIndex := -1
    chunkPreTxScript := none
    indexPreTxScript := none }

/-- The complete output search of buildChunkedUploadMergeTx. -/
def findMergeOutputs (userAddress : String) (chunkAmt indexAmt : ℤ)
    (outputs : List TxOutput) : MatchState :=
  matchLoop userAddress chunkAmt indexAmt outputs 0 initialMatchState

/-- The record buildChunkedUploadMergeTx returns. -/
structure MergeResult where
  mergeTxId : String
  mergeTxHex : String
  chunkPreTxOutputIndex : ℤ
  indexPreTxOutputIndex : ℤ
  chunkPreTxScript : Option String
  indexPreTxScript : Option String
deriving DecidableEq

/-- The unsigned merge candidate: version 10, one input per selected UTXO,
and exactly two outputs to the caller at the two funding amounts. -/
def buildMergeCandidateTx (userAddress : String) (utxoData : UtxoData)
    (chunkAmt indexAmt : ℤ) : Tx :=
  { version := 10
    inputs := utxoData.utxos.map mkTxInput
    outputs := [ { script := buildPublicKeyHashOut userAddress, satoshis := chunkAmt },
                 { script := buildPublicKeyHashOut userAddress, satoshis := indexAmt } ] }

/-- buildChunkedUploadMergeTx: construct the candidate, delegate payment
and signing to the wallet (`pay`), re-parse the signed result, and locate
the two funding outputs by address plus amount within tolerance.  The
source performs no check on the located indices: whatever the loop ends
with (possibly -1 and null) is returned.  `mergeTxFee` is accepted and
unused, as in the source. -/
def buildChunkedUploadMergeTx (pay : Tx → Except String Tx) (getTxId : Tx → String)
    (serialize : Tx → String) (userAddress : String) (utxoData : UtxoData)
    (chunkPreTxOutputAmount indexPreTxOutputAmount mergeTxFee : ℤ) :
    Except String MergeResult :=
  match pay (buildMergeCandidateTx userAddress utxoData chunkPreTxOutputAmount indexPreTxOutputAmount) with
  | .error e => .error ("Failed to build merge transaction: " ++ e)
  | .ok payedTx =>
    let st := findMergeOutputs userAddress chunkPreTxOutputAmount indexPreTxOutputAmount payedTx.outputs
    .ok { mergeTxId := getTxId payedTx
          mergeTxHex := serialize payedTx
          chunkPreTxOutputIndex := st.chunkPreTxOutputIndex
          indexPreTxOutputIndex := st.indexPreTxOutputIndex
          chunkPreTxScript := st.chunkPreTxScript
          indexPreTxScript := st.indexPreTxScript }

/-! ## Upload session persistence -/

/-- The session record saveUploadSession persists in localStorage. -/
structure UploadSessionRec where
  uploadId : String
  key : String
  fileName : String
  fileSize : ℕ
  metaId : String
  address : String
  timestamp : ℤ
deriving DecidableEq

/-- The state of the localStorage slot for one session key: absent,
present but unparsable, or a well-formed record. -/
inductive StoredValue where
  | absent : StoredValue
  | malformed : StoredValue
  | valid : UploadSessionRec → StoredValue
deriving DecidableEq

/-- The session time-to-live: 7 days in milliseconds. -/
def sessionMaxAge : ℤ := 7 * 24 * 60 * 60 * 1000

/-- getUploadSession: read the slot, discard (and remove) malformed or
expired records, return a live record unchanged.  The second component is
the storage slot after the call. -/
def getUploadSession (stored : StoredValue) (now : ℤ) : Option UploadSessionRec × StoredValue :=
  match stored with
  | .absent => (none, .absent)
  | .malformed => (none, .absent)
  | .valid s =>
    if now - s.timestamp > sessionMaxAge then (none, .absent)
    else (some s, .valid s)

/-! ## Resumable multipart upload (uploadFileToOSS) -/

/-- The multipart chunk size: 1 MiB. -/
def MULTIPART_CHUNK_SIZE : ℕ := 1 * 1024 * 1024

/-- The file descriptor fields the upload uses. -/
structure FileDesc where
  name : String
  size : ℕ
deriving DecidableEq

/-- A part record `{partNumber, etag, size}`. -/
structure UploadPart where
  partNumber : ℕ
  etag : String
  size : ℕ
deriving DecidableEq

/-- An HTTP response at the granularity the source inspects: a transport
failure (fetch rejects), a non-2xx response, or a JSON body with a status
code, a message, and optional payload. -/
inductive HttpResp (α : Type) where
  | netError : String → HttpResp α
  | notOk : ℕ → HttpResp α
  | body : ℤ → String → Option α → HttpResp α

/-- The environment of one uploadFileToOSS run: the stored session slot,
the current time, and the responses of the four multipart endpoints. -/
structure OSSEnv where
  stored : StoredValue
  now : ℤ
  listParts : HttpResp (List UploadPart)
  initiate : HttpResp (String × String)
  uploadPart : ℕ → HttpResp String
  complete : List UploadPart → HttpResp String

/-- The observable outcome of one uploadFileToOSS run: the returned key or
error, the storage slot afterwards, which part numbers were actually
uploaded, the parts list given to the completion call, and the bytes
counted toward progress. -/
structure OSSTrace where
  result : Except String String
  storeAfter : StoredValue
  uploadedPartNumbers : List ℕ
  completeParts : Option (List UploadPart)
  uploadedBytes : ℕ

/-- Lookup in the part map the source builds with `Map.set` keyed by part
number (for duplicate part numbers the last entry wins, hence the
reversed search). -/
def lookupExistingPart (parts : List UploadPart) (p : ℕ) : Option UploadPart :=
  parts.reverse.find? (fun ep => ep.partNumber == p)

/-- The byte length of part `p` of a file of `fileSize` bytes:
`min(start + CHUNK, fileSize) - start` with `start = (p-1) * CHUNK`. -/
def partSizeAt (fileSize p : ℕ) : ℕ :=
  min ((p - 1) * MULTIPART_CHUNK_SIZE + MULTIPART_CHUNK_SIZE) fileSize - (p - 1) * MULTIPART_CHUNK_SIZE

/-- The per-part loop of uploadFileToOSS over the given part numbers:
skip (reuse the recorded etag of) parts present in the resume map,
upload the rest, failing on any failed upload response.  Returns the
accumulated parts list, the part numbers actually uploaded, and the bytes
counted toward progress. -/
def ossPartLoop (env : OSSEnv) (fileSize : ℕ) (existing : List UploadPart) :
    List ℕ → Except String (List UploadPart × List ℕ × ℕ)
  | [] => .ok ([], [], 0)
  | p :: rest =>
    let partSize := partSizeAt fileSize p
    match lookupExistingPart existing p with
    | some ep =>
      match ossPartLoop env fileSize existing rest with
      | .error e => .error e
      | .ok (parts, ups, bytes) =>
        .ok ({ partNumber := p, etag := ep.etag, size := partSize } :: parts, ups, partSize + bytes)
    | none =>
      match env.uploadPart p with
      | .netError e => .error e
      | .notOk status => .error ("Failed to upload part " ++ toString p ++ ": HTTP " ++ toString status)
      | .body code msg d =>
        if code ≠ 0 then .error (if msg = "" then "Failed to upload part " ++ toString p else msg)
        else
          match d with
          | none => .error ("Failed to upload part " ++ toString p)
          | some etag =>
            match ossPartLoop env fileSize existing rest with
            | .error e => .error e
            | .ok (parts, ups, bytes) =>
              .ok ({ partNumber := p, etag := etag, size := partSize } :: parts, p :: ups, partSize + bytes)

/-- The record saveUploadSession writes after a fresh initiate. -/
def newSessionRec (file : FileDesc) (metaId address uploadId key : String) (now : ℤ) : UploadSessionRec :=
  { uploadId := uploadId
    key := key
    fileName := file.name
    fileSize := file.size
    metaId := metaId
    address := address
    timestamp := now }

/-- The initiate step: a new multipart session is requested and, on
success, persisted to the storage slot. -/
def initiateOSS (env : OSSEnv) (file : FileDesc) (metaId address : String) :
    Except String (String × String × StoredValue) :=
  match env.initiate with
  | .netError e => .error e
  | .notOk status => .error ("Failed to initiate multipart upload: HTTP " ++ toString status)
  | .body code msg d =>
    if code ≠ 0 then .error (if msg = "" then "Failed to initiate multipart upload" else msg)
    else
      match d with
      | none => .error "Failed to initiate multipart upload"
      | some (uploadId, key) =>
        .ok (uploadId, key, .valid (newSessionRec file metaId address uploadId key env.now))

/-- The completion step of uploadFileToOSS applied to the outcome of the
part loop: on loop success, sort the accumulated parts by part number and
submit them to the completion endpoint; the stored session (`store2`, the
slot state at this point) is cleared only after successful completion,
and any failure leaves it untouched and wraps the message. -/
def ossCompleteStep (env : OSSEnv) (store2 : StoredValue)
    (loopResult : Except String (List UploadPart × List ℕ × ℕ)) : OSSTrace :=
  match loopResult with
  | .error e =>
    { result := .error ("Failed to upload file to OSS: " ++ e)
      storeAfter := store2
      uploadedPartNumbers := []
      completeParts := none
      uploadedBytes := 0 }
  | .ok (parts, ups, bytes) =>
    let sorted := parts.insertionSort (fun a b => a.partNumber ≤ b.partNumber)
    match env.complete sorted with
    | .netError e =>
      { result := .error ("Failed to upload file to OSS: " ++ e)
        storeAfter := store2
        uploadedPartNumbers := ups
        completeParts := some sorted
        uploadedBytes := bytes }
    | .notOk status =>
      { result := .error ("Failed to upload file to OSS: " ++
          ("Failed to complete multipart upload: HTTP " ++ toString status))
        storeAfter := store2
        uploadedPartNumbers := ups
        completeParts := some sorted
        uploadedBytes := bytes }
    | .body code msg d =>
      if code ≠ 0 then
        { result := .error ("Failed to upload file to OSS: " ++
            (if msg = "" then "Failed to complete multipart upload" else msg))
          storeAfter := store2
          uploadedPartNumbers := ups
          completeParts := some sorted
          uploadedBytes := bytes }
      else
        match d with
        | none =>
          { result := .error ("Failed to upload file to OSS: " ++ "Failed to complete multipart upload")
            storeAfter := store2
            uploadedPartNumbers := ups
            completeParts := some sorted
            uploadedBytes := bytes }
        | some storageKey =>
          { result := .ok storageKey
            storeAfter := .absent
            uploadedPartNumbers := ups
            completeParts := some sorted
            uploadedBytes := bytes }

/-- The tail of uploadFileToOSS once a session and the resume parts are
settled: run the part loop over all part numbers, then the completion
step. -/
def ossUploadAndComplete (env : OSSEnv) (file : FileDesc)
    (existingParts : List UploadPart) (store2 : StoredValue) : OSSTrace :=
  let totalParts := (file.size + MULTIPART_CHUNK_SIZE - 1) / MULTIPART_CHUNK_SIZE
  ossCompleteStep env store2 (ossPartLoop env file.size existingParts (List.range' 1 totalParts))

/-- uploadFileToOSS: resume from a live session when the remote store
still lists parts for it, otherwise initiate a fresh session; then run
the part loop and the completion step.  Any failure is wrapped and the
storage slot is left as it was at the point of failure. -/
def uploadFileToOSS (env : OSSEnv) (file : FileDesc) (metaId address : String) : OSSTrace :=
  let lookup := getUploadSession env.stored env.now
  let store1 := lookup.2
  let resume : Option UploadSessionRec × List UploadPart :=
    match lookup.1 with
    | none => (none, [])
    | some s =>
      match env.listParts with
      | .netError _ => (none, [])
      | .notOk _ => (some s, [])
      | .body code _ d => if code = 0 then (some s, d.getD []) else (some s, [])
  let afterInit : Except String (String × String × List UploadPart × StoredValue) :=
    match resume with
    | (some s, parts) =>
      if parts.isEmpty then
        match initiateOSS env file metaId address with
        | .error e => .error e
        | .ok (uid, k, st) => .ok (uid, k, [], st)
      else .ok (s.uploadId, s.key, parts, store1)
    | (none, _) =>
      match initiateOSS env file metaId address with
      | .error e => .error e
      | .ok (uid, k, st) => .ok (uid, k, [], st)
  match afterInit with
  | .error e =>
    { result := .error ("Failed to upload file to OSS: " ++ e)
      storeAfter := store1
      uploadedPartNumbers := []
      completeParts := none
      uploadedBytes := 0 }
  | .ok (_, _, existingParts, store2) =>
    ossUploadAndComplete env file existingParts store2

/-! ## Status classification -/

/-- ASCII model of JavaScript `toLowerCase` on one character. -/
def charLower (c : Char) : Char :=
  if 65 ≤ c.toNat ∧ c.toNat ≤ 90 then Char.ofNat (c.toNat + 32) else c

/-- ASCII model of JavaScript `toLowerCase`. -/
def toLowerStr (s : String) : String :=
  ⟨s.data.map charLower⟩

/-- getStatusClass: lowercase the (possibly missing) status string and map
it to one of the four css classes, defaulting to pending. -/
def getStatusClass (status : Option String) : String :=
  let normalized := toLowerStr (status.getD "")
  if normalized = "success" then "success"
  else if normalized = "failed" then "failed"
  else if normalized = "processing" then "processing"
  else "pending"

/-! ## Progress interpolation (synchronous path) -/

/-- The per-tick progress increment: 40 points spread over an estimated 3
seconds per transaction, with chunkNumber + 1 transactions. -/
def progressPerSecond (chunkNumber : ℕ) : ℚ :=
  40 / (3 * ((chunkNumber : ℚ) + 1))

/-- The state shared between the interval callback and the request
continuation: elapsed ticks, the displayed progress, whether the interval
has been cleared, and whether the API has returned. -/
structure ProgressState where
  elapsedSeconds : ℕ
  currentProgress : ℚ
  cleared : Bool
  isApiReturned : Bool
deriving DecidableEq

/-- State at timer start: progress at the 50 floor, one of nothing
elapsed, timer armed. -/
def initialProgressState : ProgressState :=
  { elapsedSeconds := 0, currentProgress := 50, cleared := false, isApiReturned := false }

/-- One 1-second interval callback: a fired-after-return tick clears the
interval; otherwise progress advances linearly and is clamped at the 90
ceiling, clearing the interval when the ceiling is reached. -/
def progressTick (chunkNumber : ℕ) (st : ProgressState) : ProgressState :=
  if st.cleared then st
  else if st.isApiReturned then { st with cleared := true }
  else
    let e := st.elapsedSeconds + 1
    let p := 50 + progressPerSecond chunkNumber * (e : ℚ)
    if 90 ≤ p then { elapsedSeconds := e, currentProgress := 90, cleared := true, isApiReturned := st.isApiReturned }
    else { elapsedSeconds := e, currentProgress := p, cleared := false, isApiReturned := st.isApiReturned }

/-- The timer state after `n` ticks with the request still in flight. -/
def progressTicks (chunkNumber : ℕ) : ℕ → ProgressState
  | 0 => initialProgressState
  | n + 1 => progressTick chunkNumber (progressTicks chunkNumber n)

/-- What both request continuations (the await resolving and the catch
block) do to the timer: mark the API returned and clear the interval. -/
def markApiReturned (st : ProgressState) : ProgressState :=
  { st with isApiReturned := true, cleared := true }

/-- The synchronous chunked-upload response fields the flow reads. -/
structure ChunkedUploadResp where
  status : String
  message : String
  indexTxId : String
deriving DecidableEq

/-- The continuation of the synchronous branch after the chunkedUpload
request settles: on either path the timer is cleared; a thrown error is
rethrown, a failed status becomes an error, and success yields the
transaction id and pin id. -/
def handleSyncUploadResult (r : Except String ChunkedUploadResp) (st : ProgressState) :
    Except String (String × String) × ProgressState :=
  let st' := markApiReturned st
  match r with
  | .error e => (.error e, st')
  | .ok u =>
    if u.status = "failed" then
      (.error (if u.message = "" then "Upload failed with unknown error" else u.message), st')
    else (.ok (u.indexTxId, u.indexTxId ++ "i0"), st')

/-! ## Top-level error handling of runChunkedUploadFlow -/

/-- Toast severities used by the flow. -/
inductive ToastKind where
  | info : ToastKind
  | success : ToastKind
  | warning : ToastKind
  | error : ToastKind
deriving DecidableEq

/-- A toast notification. -/
structure ToastMsg where
  message : String
  kind : ToastKind
deriving DecidableEq

/-- Whether `pat` occurs at the start of `l`. -/
def listStartsWith : List Char → List Char → Bool
  | [], _ => true
  | _ :: _, [] => false
  | p :: ps, c :: cs => p = c && listStartsWith ps cs

/-- Whether `pat` occurs anywhere in `l` (JavaScript `includes`). -/
def listHasSub (pat : List Char) : List Char → Bool
  | [] => listStartsWith pat []
  | c :: rest => listStartsWith pat (c :: rest) || listHasSub pat rest

/-- JavaScript `s.includes(pat)`. -/
def containsSubstr (s pat : String) : Bool :=
  listHasSub pat.toList s.toList

/-- The message of the dependency-check rejection. -/
def dependencyErrorMsg : String :=
  "Required dependencies (toast, chainStore, userStore) are not available"

/-- The flow label used in the toasts. -/
def flowLabel : String := "Async Chunked Upload Task"

/-- The control skeleton of runChunkedUploadFlow: the dependency check
rejects before the try block; inside it, any thrown error is caught,
reported as a toast (a softer warning when the message mentions a user
cancellation), and swallowed, resolving with nothing.  `body` abstracts
everything the try block does, yielding either the synchronous result,
nothing (the asynchronous branch and the unconfirmed dialog), or a thrown
error message. -/
def runChunkedUploadFlow (toastOk chainOk userOk : Bool)
    (body : Except String (Option (String × String))) :
    Except String (Option (String × String) × List ToastMsg) :=
  if toastOk && chainOk && userOk then
    let startToast : ToastMsg := { message := "Starting " ++ flowLabel ++ "...", kind := .info }
    match body with
    | .ok v => .ok (v, [startToast])
    | .error msg =>
      let t : ToastMsg :=
        if containsSubstr msg "user cancelled" then
          { message := flowLabel ++ " cancelled", kind := .warning }
        else
          { message := flowLabel ++ " failed: " ++ msg, kind := .error }
      .ok (none, [startToast, t])
  else .error dependencyErrorMsg

/-! # Theorems -/

/-! ## C8: status classification -/

/-- Claim C8: getStatusClass is total: every input (including a missing or
empty string) yields exactly one of success, failed, processing, pending;
the classification depends only on the lowercased input; and every input
whose lowercase form is none of success, failed, processing maps to
pending. -/
theorem getStatusClass_total :
    (∀ status : Option String,
      getStatusClass status = "success" ∨ getStatusClass status = "failed" ∨
      getStatusClass status = "processing" ∨ getStatusClass status = "pending") ∧
    (∀ s t : Option String, toLowerStr (s.getD "") = toLowerStr (t.getD "") →
      getStatusClass s = getStatusClass t) ∧
    (∀ status : Option String,
      ¬ (toLowerStr (status.getD "") = "success" ∨ toLowerStr (status.getD "") = "failed" ∨
         toLowerStr (status.getD "") = "processing") →
      getStatusClass status = "pending") := by
  refine ⟨?_, ?_, ?_⟩
  · intro status
    simp only [getStatusClass]
    split_ifs <;> simp
  · intro s t h
    simp only [getStatusClass]
    rw [h]
  · intro status h
    push_neg at h
    simp only [getStatusClass]
    simp [h.1, h.2.1, h.2.2]

/-- Witness for C8 at concrete inputs. -/
theorem getStatusClass_total_witness :
    ¬ ((toLowerStr "Uploading" = "success") ∨ (toLowerStr "Uploading" = "failed") ∨
       (toLowerStr "Uploading" = "processing")) ∧
    getStatusClass (some "Uploading") = "pending" :=
  ⟨by decide, getStatusClass_total.2.2 (some "Uploading") (by decide)⟩

/-! ## C5: fee arithmetic -/

/-- Claim C5: each dependent pre-transaction build fee is
ceil((200 + 150 x 1) x feeRate), the merge fee is
ceil((200 + 150 x 2 + 34 x 2) x feeRate), the total required amount is the
sum of the two output amounts (backend estimate plus build fee) and the
merge fee, and the fee rate defaults to 1 on a falsy rate source. -/
theorem computeFlowFees_spec (chunkPreTxFee indexPreTxFee : ℤ) (rate : Option ℚ) :
    (computeFlowFees chunkPreTxFee indexPreTxFee rate).chunkPreTxBuildFee =
      ⌈(200 + 150 * 1 : ℚ) * feeRateOr1 rate⌉ ∧
    (computeFlowFees chunkPreTxFee indexPreTxFee rate).indexPreTxBuildFee =
      ⌈(200 + 150 * 1 : ℚ) * feeRateOr1 rate⌉ ∧
    (computeFlowFees chunkPreTxFee indexPreTxFee rate).mergeTxFee =
      ⌈(200 + 150 * 2 + 34 * 2 : ℚ) * feeRateOr1 rate⌉ ∧
    (computeFlowFees chunkPreTxFee indexPreTxFee rate).chunkPreTxOutputAmount =
      chunkPreTxFee + (computeFlowFees chunkPreTxFee indexPreTxFee rate).chunkPreTxBuildFee ∧
    (computeFlowFees chunkPreTxFee indexPreTxFee rate).indexPreTxOutputAmount =
      indexPreTxFee + (computeFlowFees chunkPreTxFee indexPreTxFee rate).indexPreTxBuildFee ∧
    (computeFlowFees chunkPreTxFee indexPreTxFee rate).totalRequiredAmount =
      (computeFlowFees chunkPreTxFee indexPreTxFee rate).chunkPreTxOutputAmount +
      (computeFlowFees chunkPreTxFee indexPreTxFee rate).indexPreTxOutputAmount +
      (computeFlowFees chunkPreTxFee indexPreTxFee rate).mergeTxFee ∧
    feeRateOr1 none = 1 ∧ feeRateOr1 (some 0) = 1 ∧
    (∀ q : ℚ, q ≠ 0 → feeRateOr1 (some q) = q) := by
  refine ⟨?_, ?_, ?_, rfl, rfl, rfl, rfl, rfl, ?_⟩
  · show (⌈(200 + 150 : ℚ) * feeRateOr1 rate⌉ : ℤ) = ⌈(200 + 150 * 1 : ℚ) * feeRateOr1 rate⌉
    norm_num
  · show (⌈(200 + 150 : ℚ) * feeRateOr1 rate⌉ : ℤ) = ⌈(200 + 150 * 1 : ℚ) * feeRateOr1 rate⌉
    norm_num
  · show (⌈(200 + 150 * 2 + 34 * 2 : ℚ) * feeRateOr1 rate⌉ : ℤ) =
      ⌈(200 + 150 * 2 + 34 * 2 : ℚ) * feeRateOr1 rate⌉
    rfl
  · intro q hq
    simp [feeRateOr1, hq]

/-- Witness for C5 at a concrete nonzero rate. -/
theorem computeFlowFees_spec_witness : feeRateOr1 (some 2) = 2 :=
  (computeFlowFees_spec 0 0 (some 2)).2.2.2.2.2.2.2.2 2 (by norm_num)

/-! ## C7: session expiry -/

/-- Claim C7: a stored session older than 7 days is removed and never
returned; a well-formed session at most 7 days old is returned unchanged
with the slot untouched; and no lookup ever surfaces an expired record. -/
theorem getUploadSession_expiry (s : UploadSessionRec) (now : ℤ) :
    (sessionMaxAge < now - s.timestamp →
      getUploadSession (.valid s) now = (none, .absent)) ∧
    (now - s.timestamp ≤ sessionMaxAge →
      getUploadSession (.valid s) now = (some s, .valid s)) ∧
    (∀ stored : StoredValue, ∀ r : UploadSessionRec,
      (getUploadSession stored now).1 = some r → now - r.timestamp ≤ sessionMaxAge) := by
  refine ⟨?_, ?_, ?_⟩
  · intro h
    simp [getUploadSession, h]
  · intro h
    simp [getUploadSession, not_lt.mpr h]
  · intro stored r hr
    cases stored with
    | absent => simp [getUploadSession] at hr
    | malformed => simp [getUploadSession] at hr
    | valid t =>
      by_cases h : sessionMaxAge < now - t.timestamp
      · simp [getUploadSession, h] at hr
      · simp [getUploadSession, h] at hr
        cases hr
        exact not_lt.mp h

/-- Witness for C7: a record 8 days old is discarded, a fresh one kept. -/
theorem getUploadSession_expiry_witness :
    getUploadSession (.valid ⟨"u", "k", "f", 1, "m", "a", 0⟩) (8 * 24 * 60 * 60 * 1000) =
      (none, .absent) ∧
    getUploadSession (.valid ⟨"u", "k", "f", 1, "m", "a", 0⟩) 1000 =
      (some ⟨"u", "k", "f", 1, "m", "a", 0⟩, .valid ⟨"u", "k", "f", 1, "m", "a", 0⟩) := by
  constructor
  · exact (getUploadSession_expiry ⟨"u", "k", "f", 1, "m", "a", 0⟩ (8 * 24 * 60 * 60 * 1000)).1
      (by norm_num [sessionMaxAge])
  · exact (getUploadSession_expiry ⟨"u", "k", "f", 1, "m", "a", 0⟩ 1000).2.1
      (by norm_num [sessionMaxAge])

/-! ## C10: top-level error handling -/

/-- Claim C10: with all three dependencies present, any error thrown by
the flow body is caught, reported as a toast (a softer warning when the
message contains a user-cancelled marker, a hard error otherwise) and the
call resolves with nothing instead of rethrowing; the call itself rejects
exactly when a dependency is missing. -/
theorem runChunkedUploadFlow_error_handling (toastOk chainOk userOk : Bool)
    (body : Except String (Option (String × String))) :
    (toastOk = true → chainOk = true → userOk = true →
      ∀ msg, body = .error msg →
        runChunkedUploadFlow toastOk chainOk userOk body =
          .ok (none, [⟨"Starting " ++ flowLabel ++ "...", .info⟩,
            if containsSubstr msg "user cancelled" then ⟨flowLabel ++ " cancelled", .warning⟩
            else ⟨flowLabel ++ " failed: " ++ msg, .error⟩])) ∧
    ((toastOk && chainOk && userOk) = false →
      runChunkedUploadFlow toastOk chainOk userOk body = .error dependencyErrorMsg) ∧
    ((toastOk && chainOk && userOk) = true →
      ∃ v, runChunkedUploadFlow toastOk chainOk userOk body = .ok v) := by
  refine ⟨?_, ?_, ?_⟩
  · intro h1 h2 h3 msg hbody
    subst h1; subst h2; subst h3; subst hbody
    simp only [runChunkedUploadFlow, Bool.and_self, if_true]
  · intro h
    simp [runChunkedUploadFlow, h]
  · intro h
    cases body with
    | ok v =>
      refine ⟨(v, [⟨"Starting " ++ flowLabel ++ "...", .info⟩]), ?_⟩
      simp [runChunkedUploadFlow, h]
    | error msg =>
      refine ⟨(none, [⟨"Starting " ++ flowLabel ++ "...", .info⟩,
        if containsSubstr msg "user cancelled" then ⟨flowLabel ++ " cancelled", .warning⟩
        else ⟨flowLabel ++ " failed: " ++ msg, .error⟩]), ?_⟩
      simp [runChunkedUploadFlow, h]

/-- Witness for C10: a wallet user-cancellation produces the softer
warning toast and the flow resolves. -/
theorem runChunkedUploadFlow_error_handling_witness :
    runChunkedUploadFlow true true true (.error "user cancelled the payment") =
      .ok (none, [⟨"Starting " ++ flowLabel ++ "...", .info⟩,
        ⟨flowLabel ++ " cancelled", .warning⟩]) := by
  have h := (runChunkedUploadFlow_error_handling true true true
      (.error "user cancelled the payment")).1 rfl rfl rfl "user cancelled the payment" rfl
  rw [h]
  rw [if_pos (by decide)]

/-! ## C9: progress interpolation -/

/-- The per-tick increment is strictly positive. -/
theorem progressPerSecond_pos (c : ℕ) : 0 < progressPerSecond c := by
  unfold progressPerSecond
  positivity

/-- Invariant of the interval state while the request is in flight: the
timer either is still armed with progress exactly linear in the tick
count and below the ceiling, or has been cleared with progress pinned at
the ceiling. -/
theorem progressTicks_invariant (c n : ℕ) :
    (progressTicks c n).isApiReturned = false ∧
    (((progressTicks c n).cleared = false ∧ (progressTicks c n).elapsedSeconds = n ∧
      (progressTicks c n).currentProgress = 50 + progressPerSecond c * (n : ℚ) ∧
      50 + progressPerSecond c * (n : ℚ) < 90) ∨
     ((progressTicks c n).cleared = true ∧ (progressTicks c n).currentProgress = 90 ∧
      90 ≤ 50 + progressPerSecond c * (n : ℚ))) := by
  induction n with
  | zero =>
    refine ⟨rfl, Or.inl ⟨rfl, rfl, by norm_num [progressTicks, initialProgressState], by norm_num⟩⟩
  | succ n ih =>
    obtain ⟨hapi, hcase⟩ := ih
    rcases hcase with ⟨hc, he, hp, hlt⟩ | ⟨hc, hp, hge⟩
    · by_cases h90 : (90 : ℚ) ≤ 50 + progressPerSecond c * ((n : ℚ) + 1)
      · refine ⟨?_, Or.inr ⟨?_, ?_, ?_⟩⟩ <;>
          simp [progressTicks, progressTick, hc, hapi, he, h90] <;> push_cast <;> linarith
      · refine ⟨?_, Or.inl ⟨?_, ?_, ?_, ?_⟩⟩ <;>
          simp [progressTicks, progressTick, hc, hapi, he, h90] <;> push_cast <;> linarith
    · have hge' : (90 : ℚ) ≤ 50 + progressPerSecond c * ((n : ℚ) + 1) := by
        have hper := progressPerSecond_pos c
        nlinarith
      refine ⟨?_, Or.inr ⟨?_, ?_, ?_⟩⟩ <;>
        simp [progressTicks, progressTick, hc, hapi, hp] <;> push_cast <;> linarith

/-- Claim C9: in the synchronous branch the simulated progress starts at
50, after n ticks equals the linear interpolation clamped at 90, advances
by exactly 40 / (3 x (chunkNumber + 1)) per tick below the ceiling, never
exceeds 90, and the interval is cleared when the ceiling is reached and
on both the resolve and the throw continuation of the request; the
request outcome the flow observes is independent of the timer state. -/
theorem progressSimulation_spec (c n : ℕ) (r : Except String ChunkedUploadResp)
    (st st' : ProgressState) :
    initialProgressState.currentProgress = 50 ∧
    (progressTicks c n).currentProgress = min 90 (50 + progressPerSecond c * (n : ℚ)) ∧
    (50 + progressPerSecond c * ((n : ℚ) + 1) < 90 →
      (progressTicks c (n + 1)).currentProgress =
        (progressTicks c n).currentProgress + progressPerSecond c) ∧
    (progressTicks c n).currentProgress ≤ 90 ∧
    (90 ≤ 50 + progressPerSecond c * (n : ℚ) → (progressTicks c n).cleared = true) ∧
    (handleSyncUploadResult r st).2.cleared = true ∧
    (handleSyncUploadResult r st).1 = (handleSyncUploadResult r st').1 := by
  obtain ⟨hapi, hcase⟩ := progressTicks_invariant c n
  refine ⟨rfl, ?_, ?_, ?_, ?_, ?_, ?_⟩
  · rcases hcase with ⟨-, -, hp, hlt⟩ | ⟨-, hp, hge⟩
    · rw [hp, min_eq_right (le_of_lt hlt)]
    · rw [hp, min_eq_left hge]
  · intro h
    obtain ⟨-, hcase'⟩ := progressTicks_invariant c (n + 1)
    have hper := progressPerSecond_pos c
    rcases hcase' with ⟨-, -, hp', -⟩ | ⟨-, -, hge'⟩
    · rcases hcase with ⟨-, -, hp, -⟩ | ⟨-, -, hge⟩
      · rw [hp', hp]; push_cast; ring
      · nlinarith
    · push_cast at hge'; linarith
  · rcases hcase with ⟨-, -, hp, hlt⟩ | ⟨-, hp, -⟩ <;> rw [hp]
    linarith
  · intro h
    rcases hcase with ⟨-, -, -, hlt⟩ | ⟨hc, -, -⟩
    · linarith
    · exact hc
  · cases r with
    | error e => rfl
    | ok u =>
      simp only [handleSyncUploadResult]
      split_ifs <;> rfl
  · cases r with
    | error e => rfl
    | ok u =>
      simp only [handleSyncUploadResult]
      split_ifs <;> rfl

/-- Witness for C9: with one chunk transaction the ceiling is reached
within 100 ticks and the interval is then cleared. -/
theorem progressSimulation_spec_witness : (progressTicks 0 100).cleared = true :=
  (progressSimulation_spec 0 100 (.error "") initialProgressState initialProgressState).2.2.2.2.1
    (by norm_num [progressPerSecond])

/-! ## C4: UTXO selection -/

/-- The greedy loop either stops having reached the target or consumes
the whole list, in which case its total is the accumulator plus the whole
sum. -/
theorem greedySelect_total_ge_or_all (req : ℤ) (l : List WalletUtxo)
    (accSel : List SelectedUtxo) (accTotal : ℤ) :
    req + 1 ≤ (greedySelect req l accSel accTotal).2 ∨
    (greedySelect req l accSel accTotal).2 = accTotal + sumValues l := by
  induction l generalizing accSel accTotal with
  | nil => right; simp [greedySelect, sumValues]
  | cons u rest ih =>
    simp only [greedySelect]
    by_cases h : req + 1 ≤ accTotal + u.value
    · rw [if_pos h]; left; exact h
    · rw [if_neg h]
      rcases ih (accSel ++ [mkSelectedUtxo u]) (accTotal + u.value) with h1 | h1
      · left; exact h1
      · right; rw [h1]; simp [sumValues]; ring

/-- With nonnegative values the greedy total never exceeds the
accumulator plus the whole sum. -/
theorem greedySelect_total_le (req : ℤ) (l : List WalletUtxo)
    (accSel : List SelectedUtxo) (accTotal : ℤ) (hpos : ∀ u ∈ l, 0 ≤ u.value) :
    (greedySelect req l accSel accTotal).2 ≤ accTotal + sumValues l := by
  induction l generalizing accSel accTotal with
  | nil => simp [greedySelect, sumValues]
  | cons u rest ih =>
    simp only [greedySelect]
    have hrest : ∀ v ∈ rest, 0 ≤ v.value := fun v hv => hpos v (List.mem_cons_of_mem _ hv)
    have hsum : 0 ≤ sumValues rest := by
      unfold sumValues
      apply List.sum_nonneg
      intro x hx
      obtain ⟨v, hv, rfl⟩ := List.mem_map.mp hx
      exact hrest v hv
    by_cases h : req + 1 ≤ accTotal + u.value
    · rw [if_pos h]
      simp only [sumValues, List.map_cons, List.sum_cons]
      have : sumValues rest = (rest.map (fun u => u.value)).sum := rfl
      linarith
    · rw [if_neg h]
      have := ih (accSel ++ [mkSelectedUtxo u]) (accTotal + u.value) hrest
      simp only [sumValues, List.map_cons, List.sum_cons] at this ⊢
      linarith

/-- Every selected entry the greedy loop returns comes from the
accumulator or from the input list. -/
theorem greedySelect_mem (req : ℤ) (l : List WalletUtxo)
    (accSel : List SelectedUtxo) (accTotal : ℤ) :
    ∀ su ∈ (greedySelect req l accSel accTotal).1,
      su ∈ accSel ∨ ∃ u ∈ l, su = mkSelectedUtxo u := by
  induction l generalizing accSel accTotal with
  | nil =>
    intro su hsu
    left
    simpa [greedySelect] using hsu
  | cons u rest ih =>
    intro su hsu
    simp only [greedySelect] at hsu
    by_cases h : req + 1 ≤ accTotal + u.value
    · rw [if_pos h] at hsu
      rcases List.mem_append.mp hsu with h1 | h1
      · left; exact h1
      · right; exact ⟨u, List.mem_cons_self u rest, by simpa using h1⟩
    · rw [if_neg h] at hsu
      rcases ih (accSel ++ [mkSelectedUtxo u]) (accTotal + u.value) su hsu with h1 | h1
      · rcases List.mem_append.mp h1 with h2 | h2
        · left; exact h2
        · right; exact ⟨u, List.mem_cons_self u rest, by simpa using h2⟩
      · obtain ⟨v, hv, rfl⟩ := h1
        right
        exact ⟨v, List.mem_cons_of_mem _ hv, rfl⟩

/-- Claim C4, amended: getWalletUTXOs filters out every UTXO at or below
600, succeeds exactly when the filtered values sum to at least
requiredAmount + 1 (the insufficient-balance error then carries that
sum), every returned selection reaches requiredAmount + 1 and contains
only members above the dust threshold, and a wallet whose filtered list
is empty fails with a no-UTXO error instead of the insufficient-balance
error. -/
theorem getWalletUTXOs_spec (utxos : List WalletUtxo) (requiredAmount : ℤ)
    (hreq : 0 ≤ requiredAmount) :
    (isOkResult (getWalletUTXOs utxos requiredAmount) = true ↔
      requiredAmount + 1 ≤ sumValues (utxos.filter (fun u => 600 < u.value))) ∧
    (∀ sel, getWalletUTXOs utxos requiredAmount = .ok sel →
      requiredAmount + 1 ≤ sel.totalAmount ∧ ∀ su ∈ sel.utxos, 600 < su.satoshis) ∧
    (utxos.filter (fun u => 600 < u.value) ≠ [] →
      sumValues (utxos.filter (fun u => 600 < u.value)) < requiredAmount + 1 →
      getWalletUTXOs utxos requiredAmount =
        .error (.insufficientBalance (requiredAmount + 1)
          (sumValues (utxos.filter (fun u => 600 < u.value))))) ∧
    (utxos.filter (fun u => 600 < u.value) = [] →
      getWalletUTXOs utxos requiredAmount = .error .noUtxos ∨
      getWalletUTXOs utxos requiredAmount = .error .noDustFree) := by
  by_cases hE : utxos.isEmpty
  · have hnil : utxos = [] := by
      cases utxos with
      | nil => rfl
      | cons a l => simp [List.isEmpty] at hE
    subst hnil
    have hres : getWalletUTXOs [] requiredAmount = .error .noUtxos := rfl
    refine ⟨?_, ?_, ?_, ?_⟩
    · rw [hres]
      simp only [isOkResult, List.filter_nil, sumValues, List.map_nil, List.sum_nil]
      constructor
      · intro h; cases h
      · intro h; omega
    · intro sel hsel
      rw [hres] at hsel
      cases hsel
    · intro hne
      simp at hne
    · intro _
      left
      exact hres
  · have hconsume : utxos.isEmpty = false := by
      cases h : utxos.isEmpty
      · rfl
      · exact absurd h hE
    by_cases hF : (utxos.filter (fun u => 600 < u.value)).isEmpty
    · have hFnil : utxos.filter (fun u => 600 < u.value) = [] := by
        cases h : utxos.filter (fun u => 600 < u.value) with
        | nil => rfl
        | cons a l => rw [h] at hF; simp [List.isEmpty] at hF
      have hres : getWalletUTXOs utxos requiredAmount = .error .noDustFree := by
        unfold getWalletUTXOs
        rw [if_neg (by simp [hconsume])]
        simp only [hFnil]
        rfl
      refine ⟨?_, ?_, ?_, ?_⟩
      · rw [hres, hFnil]
        simp only [isOkResult, sumValues, List.map_nil, List.sum_nil]
        constructor
        · intro h; cases h
        · intro h; omega
      · intro sel hsel
        rw [hres] at hsel
        cases hsel
      · intro hne
        exact absurd hFnil hne
      · intro _
        right
        exact hres
    · -- nonempty filtered list: the greedy branch
      set F := utxos.filter (fun u => 600 < u.value) with hFdef
      set S := F.insertionSort (fun a b => b.value ≤ a.value) with hSdef
      have hperm : S.Perm F := List.perm_insertionSort _ F
      have hsumSF : sumValues S = sumValues F := by
        unfold sumValues
        exact (hperm.map (fun u => u.value)).sum_eq
      have hmemF : ∀ u ∈ F, 600 < u.value := by
        intro u hu
        have := List.of_mem_filter hu
        exact of_decide_eq_true this
      have hpos : ∀ u ∈ S, 0 ≤ u.value := by
        intro u hu
        have := hmemF u (hperm.mem_iff.mp hu)
        linarith
    -- unfold the function to the greedy branch
      have hres : getWalletUTXOs utxos requiredAmount =
          (if (greedySelect requiredAmount S [] 0).2 < requiredAmount + 1 then
            .error (.insufficientBalance (requiredAmount + 1) (greedySelect requiredAmount S [] 0).2)
          else .ok { utxos := (greedySelect requiredAmount S [] 0).1,
                     totalAmount := (greedySelect requiredAmount S [] 0).2 }) := by
        unfold getWalletUTXOs
        rw [if_neg (by simp [hconsume])]
        rw [if_neg (by simp [hFdef] at hF ⊢; exact hF)]
      have hge_or := greedySelect_total_ge_or_all requiredAmount S [] 0
      have hle := greedySelect_total_le requiredAmount S [] 0 hpos
      rw [zero_add] at hle
      refine ⟨?_, ?_, ?_, ?_⟩
      · rw [hres]
        by_cases hlt : (greedySelect requiredAmount S [] 0).2 < requiredAmount + 1
        · rw [if_pos hlt]
          simp only [isOkResult]
          constructor
          · intro h; cases h
          · intro h
            rw [hsumSF] at hle
            omega
        · rw [if_neg hlt]
          simp only [isOkResult, true_iff]
          push_neg at hlt
          rw [← hsumSF]
          exact le_trans hlt hle
      · intro sel hsel
        rw [hres] at hsel
        by_cases hlt : (greedySelect requiredAmount S [] 0).2 < requiredAmount + 1
        · rw [if_pos hlt] at hsel; cases hsel
        · rw [if_neg hlt] at hsel
          cases hsel
          push_neg at hlt
          refine ⟨hlt, ?_⟩
          intro su hsu
          rcases greedySelect_mem requiredAmount S [] 0 su hsu with h1 | h1
          · cases h1
          · obtain ⟨u, hu, rfl⟩ := h1
            have := hmemF u (hperm.mem_iff.mp hu)
            simpa [mkSelectedUtxo] using this
      · intro _ hlt
        rw [hres]
        have hlt' : (greedySelect requiredAmount S [] 0).2 < requiredAmount + 1 := by
          rw [hsumSF] at hle
          omega
        rw [if_pos hlt']
        have heq : (greedySelect requiredAmount S [] 0).2 = sumValues F := by
          rcases hge_or with h1 | h1
          · omega
          · rw [h1, zero_add, hsumSF]
        rw [heq]
      · intro hFnil
        exfalso
        apply hF
        rw [hFnil]
        rfl

/-- Counterexample for C4 as stated: a wallet holding exactly one UTXO at
the dust bound, with requiredAmount 0, has a filtered sum (0) below
requiredAmount + 1, yet getWalletUTXOs fails with the no-dust-free-UTXO
error, not the insufficient-balance error. -/
theorem getWalletUTXOs_dust_counterexample :
    sumValues (List.filter (fun u => 600 < u.value) [⟨"t", 0, "a", 600⟩]) < 0 + 1 ∧
    isInsufficientErr (getWalletUTXOs [⟨"t", 0, "a", 600⟩] 0) = false ∧
    getWalletUTXOs [⟨"t", 0, "a", 600⟩] 0 = .error .noDustFree := by
  refine ⟨by decide, ?_, ?_⟩ <;> rfl

/-- Witness for C4 at a concrete wallet: two spendable UTXOs and one dust
UTXO, requiredAmount 1000. -/
theorem getWalletUTXOs_spec_witness :
    isOkResult (getWalletUTXOs [⟨"t1", 0, "a", 700⟩, ⟨"t2", 1, "a", 500⟩, ⟨"t3", 2, "a", 900⟩] 1000) =
      true := by
  have h := (getWalletUTXOs_spec [⟨"t1", 0, "a", 700⟩, ⟨"t2", 1, "a", 500⟩, ⟨"t3", 2, "a", 900⟩]
      1000 (by norm_num)).1
  exact h.mpr (by decide)

/-! ## C1: open pre-transactions -/

/-- Claim C1: for a single-UTXO utxoData, buildChunkFundingPreTx and
buildIndexPreTx each serialize the same transaction having exactly one
input and no outputs; exactly one wallet signature was requested, for
input 0 over the unsigned transaction, with sighash mode
SIGHASH_NONE OR SIGHASH_ANYONECANPAY (0x2 OR 0x40); and the input carries
the P2PKH unlocking script built from the returned signature and public
key, spliced in before serialization. -/
theorem buildPreTx_open_single_input
    (sign : SignRequest → SignResult) (toDER : String → String) (serialize : Tx → String)
    (address : String) (utxoData : UtxoData) (chunkFee indexFee : ℤ)
    (u : SelectedUtxo) (hu : utxoData.utxos = [u]) :
    ∃ req : SignRequest, ∃ tx : Tx,
      buildChunkFundingPreTxTrace sign toDER serialize address utxoData chunkFee = (tx, [req]) ∧
      buildIndexPreTxTrace sign toDER serialize address utxoData indexFee = (tx, [req]) ∧
      buildChunkFundingPreTx sign toDER serialize address utxoData chunkFee = serialize tx ∧
      buildIndexPreTx sign toDER serialize address utxoData indexFee = serialize tx ∧
      tx.version = 10 ∧
      tx.inputs.length = 1 ∧
      tx.outputs = [] ∧
      req.sigtype = (0x2 ||| 0x40) ∧
      req.inputIndex = 0 ∧
      req.scriptHex = u.script ∧
      req.satoshis = u.satoshis ∧
      req.address = address ∧
      req.txHex = serialize { version := 10, inputs := [mkTxInput u], outputs := [] } ∧
      tx.inputs.map (fun inp => inp.script) =
        [buildPublicKeyHashIn (sign req).publicKey (toDER (sign req).sig) (0x2 ||| 0x40)] := by
  obtain ⟨utxos, totalAmount⟩ := utxoData
  simp only at hu
  subst hu
  refine ⟨{ txHex := serialize { version := 10, inputs := [mkTxInput u], outputs := [] }
            address := address
            inputIndex := 0
            scriptHex := u.script
            satoshis := u.satoshis
            sigtype := sighashNoneAnyoneCanPay }, _,
          rfl, rfl, rfl, rfl, rfl, rfl, rfl, rfl, rfl, rfl, rfl, rfl, rfl, rfl⟩

/-- Witness for C1 at a concrete UTXO and concrete collaborator
functions. -/
theorem buildPreTx_open_single_input_witness :
    (buildChunkFundingPreTxTrace (fun _ => ⟨"sig0", "pk0"⟩) (fun s => s ++ ".der")
        (fun t => toString t.inputs.length) "addr" ⟨[⟨"txid0", 0, "scr0", 700⟩], 700⟩ 5).2.length =
      1 := by
  obtain ⟨req, tx, h1, -⟩ := buildPreTx_open_single_input (fun _ => ⟨"sig0", "pk0"⟩)
    (fun s => s ++ ".der") (fun t => toString t.inputs.length) "addr"
    ⟨[⟨"txid0", 0, "scr0", 700⟩], 700⟩ 5 7 ⟨"txid0", 0, "scr0", 700⟩ rfl
  rw [h1]
  rfl

/-! ## C2: merge transaction output matching never fails -/

/-- If no output of `l` both matches the address and lies within the
chunk-amount tolerance, the loop leaves the chunk index and script
untouched. -/
theorem matchLoop_chunk_invariant (ua : String) (ca ia : ℤ) (l : List TxOutput)
    (i : ℕ) (st : MatchState)
    (h : ∀ o ∈ l, ¬ (isAddrMatch ua o = true ∧ (o.satoshis - ca).natAbs ≤ amountTolerance)) :
    (matchLoop ua ca ia l i st).chunkPreTxOutputIndex = st.chunkPreTxOutputIndex ∧
    (matchLoop ua ca ia l i st).chunkPreTxScript = st.chunkPreTxScript := by
  induction l generalizing i st with
  | nil => exact ⟨rfl, rfl⟩
  | cons o rest ih =>
    have ho := h o (List.mem_cons_self o rest)
    have hrest : ∀ o' ∈ rest, ¬ (isAddrMatch ua o' = true ∧ (o'.satoshis - ca).natAbs ≤ amountTolerance) :=
      fun o' ho' => h o' (List.mem_cons_of_mem _ ho')
    have hstep : (matchStep ua ca ia i o st).chunkPreTxOutputIndex = st.chunkPreTxOutputIndex ∧
        (matchStep ua ca ia i o st).chunkPreTxScript = st.chunkPreTxScript := by
      cases haddr : o.script.toAddress with
      | none => simp [matchStep, haddr]
      | some a =>
        simp only [matchStep, haddr]
        by_cases hua : a = ua
        · rw [if_pos hua]
          have hnotol : ¬ (st.chunkPreTxOutputIndex = -1 ∧ (o.satoshis - ca).natAbs ≤ amountTolerance) := by
            rintro ⟨-, htol⟩
            exact ho ⟨by simp [isAddrMatch, haddr, hua], htol⟩
          rw [if_neg hnotol]
          by_cases hidx : st.indexPreTxOutputIndex = -1 ∧ (o.satoshis - ia).natAbs ≤ amountTolerance
          · rw [if_pos hidx]
            exact ⟨rfl, rfl⟩
          · rw [if_neg hidx]
            exact ⟨rfl, rfl⟩
        · rw [if_neg hua]
          exact ⟨rfl, rfl⟩
    have := ih (i + 1) (matchStep ua ca ia i o st) hrest
    unfold matchLoop
    exact ⟨this.1.trans hstep.1, this.2.trans hstep.2⟩

/-- If no output of `l` both matches the address and lies within the
index-amount tolerance, the loop leaves the index index and script
untouched. -/
theorem matchLoop_index_invariant (ua : String) (ca ia : ℤ) (l : List TxOutput)
    (i : ℕ) (st : MatchState)
    (h : ∀ o ∈ l, ¬ (isAddrMatch ua o = true ∧ (o.satoshis - ia).natAbs ≤ amountTolerance)) :
    (matchLoop ua ca ia l i st).indexPreTxOutputIndex = st.indexPreTxOutputIndex ∧
    (matchLoop ua ca ia l i st).indexPreTxScript = st.indexPreTxScript := by
  induction l generalizing i st with
  | nil => exact ⟨rfl, rfl⟩
  | cons o rest ih =>
    have ho := h o (List.mem_cons_self o rest)
    have hrest : ∀ o' ∈ rest, ¬ (isAddrMatch ua o' = true ∧ (o'.satoshis - ia).natAbs ≤ amountTolerance) :=
      fun o' ho' => h o' (List.mem_cons_of_mem _ ho')
    have hstep : (matchStep ua ca ia i o st).indexPreTxOutputIndex = st.indexPreTxOutputIndex ∧
        (matchStep ua ca ia i o st).indexPreTxScript = st.indexPreTxScript := by
      cases haddr : o.script.toAddress with
      | none => simp [matchStep, haddr]
      | some a =>
        simp only [matchStep, haddr]
        by_cases hua : a = ua
        · rw [if_pos hua]
          by_cases hchunk : st.chunkPreTxOutputIndex = -1 ∧ (o.satoshis - ca).natAbs ≤ amountTolerance
          · rw [if_pos hchunk]
            exact ⟨rfl, rfl⟩
          · rw [if_neg hchunk]
            have hnotol : ¬ (st.indexPreTxOutputIndex = -1 ∧ (o.satoshis - ia).natAbs ≤ amountTolerance) := by
              rintro ⟨-, htol⟩
              exact ho ⟨by simp [isAddrMatch, haddr, hua], htol⟩
            rw [if_neg hnotol]
            exact ⟨rfl, rfl⟩
        · rw [if_neg hua]
          exact ⟨rfl, rfl⟩
    have := ih (i + 1) (matchStep ua ca ia i o st) hrest
    unfold matchLoop
    exact ⟨this.1.trans hstep.1, this.2.trans hstep.2⟩

/-- Claim C2, amended: buildChunkedUploadMergeTx performs no output-match
check at all.  Whenever the wallet returns a signed transaction, the call
succeeds; if no output matches the address within tolerance of the chunk
amount the result simply carries chunkPreTxOutputIndex -1 and a null
script (likewise for the index amount), and the caller proceeds with
those invalid values. -/
theorem buildChunkedUploadMergeTx_unmatched
    (pay : Tx → Except String Tx) (getTxId : Tx → String) (serialize : Tx → String)
    (ua : String) (utxoData : UtxoData) (ca ia fee : ℤ) (signedTx : Tx)
    (hpay : pay (buildMergeCandidateTx ua utxoData ca ia) = .ok signedTx) :
    ∃ res : MergeResult,
      buildChunkedUploadMergeTx pay getTxId serialize ua utxoData ca ia fee = .ok res ∧
      ((∀ o ∈ signedTx.outputs,
          ¬ (isAddrMatch ua o = true ∧ (o.satoshis - ca).natAbs ≤ amountTolerance)) →
        res.chunkPreTxOutputIndex = -1 ∧ res.chunkPreTxScript = none) ∧
      ((∀ o ∈ signedTx.outputs,
          ¬ (isAddrMatch ua o = true ∧ (o.satoshis - ia).natAbs ≤ amountTolerance)) →
        res.indexPreTxOutputIndex = -1 ∧ res.indexPreTxScript = none) := by
  refine ⟨{ mergeTxId := getTxId signedTx
            mergeTxHex := serialize signedTx
            chunkPreTxOutputIndex := (findMergeOutputs ua ca ia signedTx.outputs).chunkPreTxOutputIndex
            indexPreTxOutputIndex := (findMergeOutputs ua ca ia signedTx.outputs).indexPreTxOutputIndex
            chunkPreTxScript := (findMergeOutputs ua ca ia signedTx.outputs).chunkPreTxScript
            indexPreTxScript := (findMergeOutputs ua ca ia signedTx.outputs).indexPreTxScript },
          ?_, ?_, ?_⟩
  · unfold buildChunkedUploadMergeTx
    rw [hpay]
  · intro h
    have := matchLoop_chunk_invariant ua ca ia signedTx.outputs 0 initialMatchState h
    exact ⟨this.1, this.2⟩
  · intro h
    have := matchLoop_index_invariant ua ca ia signedTx.outputs 0 initialMatchState h
    exact ⟨this.1, this.2⟩

/-- Counterexample for C2 as stated: the wallet returns a signed merge
transaction whose only output matches neither requested amount, yet
buildChunkedUploadMergeTx returns a result (with index -1 and null
script) instead of failing with an output-match error. -/
theorem buildChunkedUploadMergeTx_no_failure_counterexample :
    buildChunkedUploadMergeTx
      (fun _ => .ok { version := 10, inputs := [], outputs := [⟨.p2pkhOut "addr", 100⟩] })
      (fun _ => "txid") (fun _ => "hex") "addr" ⟨[], 0⟩ 5000 8000 100 =
    .ok { mergeTxId := "txid", mergeTxHex := "hex",
          chunkPreTxOutputIndex := -1, indexPreTxOutputIndex := -1,
          chunkPreTxScript := none, indexPreTxScript := none } := by
  rfl

/-- Witness for C2 (amended) at a concrete run. -/
theorem buildChunkedUploadMergeTx_unmatched_witness :
    ∃ res : MergeResult,
      buildChunkedUploadMergeTx
        (fun _ => .ok { version := 10, inputs := [], outputs := [] })
        (fun _ => "t") (fun _ => "h") "a" ⟨[], 0⟩ 5000 8000 1 = .ok res ∧
      res.chunkPreTxOutputIndex = -1 ∧ res.indexPreTxOutputIndex = -1 := by
  obtain ⟨res, h1, h2, h3⟩ := buildChunkedUploadMergeTx_unmatched
    (fun _ => .ok { version := 10, inputs := [], outputs := [] })
    (fun _ => "t") (fun _ => "h") "a" ⟨[], 0⟩ 5000 8000 1
    { version := 10, inputs := [], outputs := [] } rfl
  exact ⟨res, h1, (h2 (by intro o ho; cases ho)).1, (h3 (by intro o ho; cases ho)).1⟩

/-! ## C6: output matching is order independent -/

/-- The matching loop splits over list concatenation, with the position
counter advanced by the length of the first part. -/
theorem matchLoop_append (ua : String) (ca ia : ℤ) (l1 l2 : List TxOutput)
    (i : ℕ) (st : MatchState) :
    matchLoop ua ca ia (l1 ++ l2) i st =
      matchLoop ua ca ia l2 (i + l1.length) (matchLoop ua ca ia l1 i st) := by
  induction l1 generalizing i st with
  | nil => simp [matchLoop]
  | cons o rest ih =>
    simp only [List.cons_append, matchLoop, List.length_cons, List.append_eq]
    rw [ih]
    have harith : i + 1 + rest.length = i + (rest.length + 1) := by omega
    rw [harith]

/-- Outputs that do not match the address leave the loop state
unchanged. -/
theorem matchLoop_skip (ua : String) (ca ia : ℤ) (l : List TxOutput)
    (i : ℕ) (st : MatchState) (h : ∀ o ∈ l, isAddrMatch ua o = false) :
    matchLoop ua ca ia l i st = st := by
  induction l generalizing i st with
  | nil => rfl
  | cons o rest ih =>
    have ho := h o (List.mem_cons_self o rest)
    have hrest : ∀ o' ∈ rest, isAddrMatch ua o' = false :=
      fun o' ho' => h o' (List.mem_cons_of_mem _ ho')
    have hstep : matchStep ua ca ia i o st = st := by
      unfold isAddrMatch at ho
      cases haddr : o.script.toAddress with
      | none => simp [matchStep, haddr]
      | some a =>
        rw [haddr] at ho
        have hne : ¬ a = ua := by
          intro hcontra
          rw [hcontra] at ho
          simp at ho
        simp only [matchStep, haddr]
        rw [if_neg hne]
    unfold matchLoop
    rw [hstep]
    exact ih (i + 1) st hrest

/-- An address-matching output within chunk tolerance, seen while the
chunk slot is still free, claims the chunk slot. -/
theorem matchStep_claim_chunk (ua : String) (ca ia : ℤ) (i : ℕ) (o : TxOutput)
    (st : MatchState) (haddr : isAddrMatch ua o = true)
    (hfree : st.chunkPreTxOutputIndex = -1)
    (htol : (o.satoshis - ca).natAbs ≤ amountTolerance) :
    matchStep ua ca ia i o st =
      { st with chunkPreTxOutputIndex := (i : ℤ), chunkPreTxScript := some o.script.toHex } := by
  unfold isAddrMatch at haddr
  cases h : o.script.toAddress with
  | none => rw [h] at haddr; cases haddr
  | some a =>
    rw [h] at haddr
    have ha : a = ua := of_decide_eq_true haddr
    simp only [matchStep, h]
    rw [if_pos ha, if_pos ⟨hfree, htol⟩]

/-- An address-matching output within index tolerance but not claimable
as the chunk output, seen while the index slot is still free, claims the
index slot. -/
theorem matchStep_claim_index (ua : String) (ca ia : ℤ) (i : ℕ) (o : TxOutput)
    (st : MatchState) (haddr : isAddrMatch ua o = true)
    (hchunkNo : ¬ (st.chunkPreTxOutputIndex = -1 ∧ (o.satoshis - ca).natAbs ≤ amountTolerance))
    (hfree : st.indexPreTxOutputIndex = -1)
    (htol : (o.satoshis - ia).natAbs ≤ amountTolerance) :
    matchStep ua ca ia i o st =
      { st with indexPreTxOutputIndex := (i : ℤ), indexPreTxScript := some o.script.toHex } := by
  unfold isAddrMatch at haddr
  cases h : o.script.toAddress with
  | none => rw [h] at haddr; cases haddr
  | some a =>
    rw [h] at haddr
    have ha : a = ua := of_decide_eq_true haddr
    simp only [matchStep, h]
    rw [if_pos ha, if_neg hchunkNo, if_pos ⟨hfree, htol⟩]

/-- Claim C6: for a signed merge transaction whose address-matching
outputs are exactly two, one within tolerance of the chunk amount only
and the other within tolerance of the index amount only, the chunk index
is assigned to the former and the index index to the latter, whichever
order the two appear in among the outputs. -/
theorem mergeOutputMatching_order_independent
    (ua : String) (ca ia : ℤ) (f m b : List TxOutput) (oA oB : TxOutput)
    (hf : ∀ o ∈ f, isAddrMatch ua o = false)
    (hm : ∀ o ∈ m, isAddrMatch ua o = false)
    (hb : ∀ o ∈ b, isAddrMatch ua o = false)
    (hA : isAddrMatch ua oA = true) (hB : isAddrMatch ua oB = true)
    (hAc : (oA.satoshis - ca).natAbs ≤ amountTolerance)
    (hAi : ¬ (oA.satoshis - ia).natAbs ≤ amountTolerance)
    (hBi : (oB.satoshis - ia).natAbs ≤ amountTolerance)
    (hBc : ¬ (oB.satoshis - ca).natAbs ≤ amountTolerance) :
    findMergeOutputs ua ca ia (f ++ oA :: (m ++ oB :: b)) =
      { chunkPreTxOutputIndex := (f.length : ℤ)
        indexPreTxOutputIndex := ((f.length + 1 + m.length : ℕ) : ℤ)
        chunkPreTxScript := some oA.script.toHex
        indexPreTxScript := some oB.script.toHex } ∧
    findMergeOutputs ua ca ia (f ++ oB :: (m ++ oA :: b)) =
      { chunkPreTxOutputIndex := ((f.length + 1 + m.length : ℕ) : ℤ)
        indexPreTxOutputIndex := (f.length : ℤ)
        chunkPreTxScript := some oA.script.toHex
        indexPreTxScript := some oB.script.toHex } := by
  have hcastne : ((f.length : ℤ)) ≠ -1 := by omega
  constructor
  · unfold findMergeOutputs
    rw [matchLoop_append, matchLoop_skip ua ca ia f 0 initialMatchState hf]
    simp only [Nat.zero_add, matchLoop]
    rw [matchStep_claim_chunk ua ca ia f.length oA initialMatchState hA rfl hAc]
    rw [matchLoop_append, matchLoop_skip ua ca ia m _ _ hm]
    simp only [matchLoop]
    rw [matchStep_claim_index ua ca ia (f.length + 1 + m.length) oB _ hB
      (by rintro ⟨h1, -⟩; exact hcastne h1) rfl hBi]
    rw [matchLoop_skip ua ca ia b _ _ hb]
  · unfold findMergeOutputs
    rw [matchLoop_append, matchLoop_skip ua ca ia f 0 initialMatchState hf]
    simp only [Nat.zero_add, matchLoop]
    rw [matchStep_claim_index ua ca ia f.length oB initialMatchState hB
      (by rintro ⟨-, h2⟩; exact hBc h2) rfl hBi]
    rw [matchLoop_append, matchLoop_skip ua ca ia m _ _ hm]
    simp only [matchLoop]
    rw [matchStep_claim_chunk ua ca ia (f.length + 1 + m.length) oA _ hA rfl hAc]
    rw [matchLoop_skip ua ca ia b _ _ hb]

/-- Witness for C6 at two concrete two-output transactions in the two
orders. -/
theorem mergeOutputMatching_order_independent_witness :
    (findMergeOutputs "a" 5000 8000
        [⟨.p2pkhOut "a", 5000⟩, ⟨.p2pkhOut "a", 8000⟩]).chunkPreTxOutputIndex = 0 ∧
    (findMergeOutputs "a" 5000 8000
        [⟨.p2pkhOut "a", 8000⟩, ⟨.p2pkhOut "a", 5000⟩]).chunkPreTxOutputIndex = 1 := by
  have h := mergeOutputMatching_order_independent "a" 5000 8000 [] [] []
    ⟨.p2pkhOut "a", 5000⟩ ⟨.p2pkhOut "a", 8000⟩
    (by intro o ho; cases ho) (by intro o ho; cases ho) (by intro o ho; cases ho)
    (by decide) (by decide) (by decide) (by decide) (by decide) (by decide)
  obtain ⟨h1, h2⟩ := h
  simp only [List.nil_append] at h1 h2
  rw [h1, h2]
  exact ⟨rfl, rfl⟩

/-! ## C3: multipart resume -/

/-- Lookup in a resume map whose entries are exactly parts 1..k. -/
theorem lookupExistingPart_range (k : ℕ) (g : ℕ → UploadPart)
    (hg : ∀ n, (g n).partNumber = n) (p : ℕ) :
    lookupExistingPart ((List.range' 1 k).map g) p =
      if 1 ≤ p ∧ p ≤ k then some (g p) else none := by
  induction k with
  | zero =>
    rw [if_neg (by omega)]
    rfl
  | succ k ih =>
    unfold lookupExistingPart
    rw [List.range'_concat, List.map_append, List.reverse_append]
    simp only [List.map_cons, List.map_nil, List.reverse_cons, List.reverse_nil,
      List.nil_append, List.singleton_append, Nat.one_mul]
    by_cases hp : p = k + 1
    · rw [List.find?_cons_of_pos _ (by rw [hg]; simp; omega)]
      rw [if_pos (by omega)]
      have : 1 + k = p := by omega
      rw [this]
    · rw [List.find?_cons_of_neg _ (by rw [hg]; simp; omega)]
      have ih2 := ih
      unfold lookupExistingPart at ih2
      rw [ih2]
      by_cases h2 : 1 ≤ p ∧ p ≤ k
      · rw [if_pos h2, if_pos (by omega)]
      · rw [if_neg h2, if_neg (by omega)]

/-- The part loop with every missing part answered successfully:
it returns all parts (recorded etags for resumed parts, response etags
for uploaded ones), uploads exactly the missing part numbers, and counts
every byte. -/
theorem ossPartLoop_ok (env : OSSEnv) (size : ℕ) (existing : List UploadPart)
    (etagOf : ℕ → String) (ps : List ℕ)
    (h : ∀ p ∈ ps, lookupExistingPart existing p = none →
      env.uploadPart p = .body 0 "" (some (etagOf p))) :
    ossPartLoop env size existing ps = .ok
      (ps.map (fun p => { partNumber := p
                          etag := (match lookupExistingPart existing p with
                                   | some ep => ep.etag
                                   | none => etagOf p)
                          size := partSizeAt size p }),
       ps.filter (fun p => (lookupExistingPart existing p).isNone),
       (ps.map (fun p => partSizeAt size p)).sum) := by
  induction ps with
  | nil => rfl
  | cons p rest ih =>
    have hp := h p (List.mem_cons_self p rest)
    have hrest : ∀ q ∈ rest, lookupExistingPart existing q = none →
        env.uploadPart q = .body 0 "" (some (etagOf q)) :=
      fun q hq => h q (List.mem_cons_of_mem _ hq)
    simp only [ossPartLoop]
    cases hlk : lookupExistingPart existing p with
    | some ep =>
      rw [ih hrest]
      simp [hlk, List.filter_cons]
    | none =>
      rw [hp hlk]
      rw [ih hrest]
      simp [hlk, List.filter_cons]

/-- The storage slot after the completion step, for an arbitrary loop
outcome: cleared exactly when the completion succeeded, untouched on
every failure path. -/
theorem ossCompleteStep_store (env : OSSEnv) (store2 : StoredValue)
    (r : Except String (List UploadPart × List ℕ × ℕ)) :
    ((∃ key, (ossCompleteStep env store2 r).result = .ok key) →
      (ossCompleteStep env store2 r).storeAfter = .absent) ∧
    ((∀ key, (ossCompleteStep env store2 r).result ≠ .ok key) →
      (ossCompleteStep env store2 r).storeAfter = store2) := by
  cases r with
  | error e =>
    refine ⟨?_, ?_⟩
    · rintro ⟨key, hk⟩
      cases hk
    · intro _
      rfl
  | ok t =>
    obtain ⟨parts, ups, bytes⟩ := t
    simp only [ossCompleteStep]
    cases hc : env.complete (parts.insertionSort (fun a b => a.partNumber ≤ b.partNumber)) with
    | netError e =>
      refine ⟨?_, ?_⟩
      · rintro ⟨key, hk⟩
        cases hk
      · intro _
        rfl
    | notOk status =>
      refine ⟨?_, ?_⟩
      · rintro ⟨key, hk⟩
        cases hk
      · intro _
        rfl
    | body code cmsg d =>
      dsimp only
      by_cases hcode : code ≠ 0
      · rw [if_pos hcode]
        refine ⟨?_, ?_⟩
        · rintro ⟨key, hk⟩
          cases hk
        · intro _
          rfl
      · rw [if_neg hcode]
        cases d with
        | none =>
          refine ⟨?_, ?_⟩
          · rintro ⟨key, hk⟩
            cases hk
          · intro _
            rfl
        | some storageKey =>
          refine ⟨?_, ?_⟩
          · intro _
            rfl
          · intro hk
            exact absurd rfl (hk storageKey)

/-- The storage slot after the upload tail: cleared exactly when the
completion succeeded, untouched on every failure path. -/
theorem ossUploadAndComplete_store (env : OSSEnv) (file : FileDesc)
    (existingParts : List UploadPart) (store2 : StoredValue) :
    ((∃ key, (ossUploadAndComplete env file existingParts store2).result = .ok key) →
      (ossUploadAndComplete env file existingParts store2).storeAfter = .absent) ∧
    ((∀ key, (ossUploadAndComplete env file existingParts store2).result ≠ .ok key) →
      (ossUploadAndComplete env file existingParts store2).storeAfter = store2) :=
  ossCompleteStep_store env store2
    (ossPartLoop env file.size existingParts
      (List.range' 1 ((file.size + MULTIPART_CHUNK_SIZE - 1) / MULTIPART_CHUNK_SIZE)))

/-- The completion step on the all-successful path. -/
theorem ossCompleteStep_success (env : OSSEnv) (store2 : StoredValue)
    (partsList : List UploadPart) (ups : List ℕ) (bytes : ℕ)
    (cmsg finalKey : String)
    (hsorteq : partsList.insertionSort (fun a b => a.partNumber ≤ b.partNumber) = partsList)
    (hcomp : env.complete partsList = .body 0 cmsg (some finalKey)) :
    (ossCompleteStep env store2 (.ok (partsList, ups, bytes))).result = .ok finalKey ∧
    (ossCompleteStep env store2 (.ok (partsList, ups, bytes))).storeAfter = .absent ∧
    (ossCompleteStep env store2 (.ok (partsList, ups, bytes))).uploadedPartNumbers = ups ∧
    (ossCompleteStep env store2 (.ok (partsList, ups, bytes))).completeParts = some partsList ∧
    (ossCompleteStep env store2 (.ok (partsList, ups, bytes))).uploadedBytes = bytes := by
  simp only [ossCompleteStep]
  rw [hsorteq, hcomp]
  dsimp only
  rw [if_neg (by simp)]
  exact ⟨rfl, rfl, rfl, rfl, rfl⟩

/-- The upload tail on the all-successful path. -/
theorem ossUploadAndComplete_success (env : OSSEnv) (file : FileDesc)
    (existingParts : List UploadPart) (store2 : StoredValue)
    (partsList : List UploadPart) (ups : List ℕ) (bytes : ℕ)
    (cmsg finalKey : String)
    (hloop : ossPartLoop env file.size existingParts
      (List.range' 1 ((file.size + MULTIPART_CHUNK_SIZE - 1) / MULTIPART_CHUNK_SIZE)) =
      .ok (partsList, ups, bytes))
    (hsorteq : partsList.insertionSort (fun a b => a.partNumber ≤ b.partNumber) = partsList)
    (hcomp : env.complete partsList = .body 0 cmsg (some finalKey)) :
    (ossUploadAndComplete env file existingParts store2).result = .ok finalKey ∧
    (ossUploadAndComplete env file existingParts store2).storeAfter = .absent ∧
    (ossUploadAndComplete env file existingParts store2).uploadedPartNumbers = ups ∧
    (ossUploadAndComplete env file existingParts store2).completeParts = some partsList ∧
    (ossUploadAndComplete env file existingParts store2).uploadedBytes = bytes := by
  have h := ossCompleteStep_success env store2 partsList ups bytes cmsg finalKey hsorteq hcomp
  rw [← hloop] at h
  exact h

/-- With a live stored session and a nonempty list-parts response, the
upload is the tail computation run on the listed parts, with the slot
still holding the session. -/
theorem uploadFileToOSS_resume_eval (env : OSSEnv) (file : FileDesc) (metaId address : String)
    (s : UploadSessionRec) (existingParts : List UploadPart) (msg : String)
    (hstored : env.stored = .valid s)
    (hlive : env.now - s.timestamp ≤ sessionMaxAge)
    (hlist : env.listParts = .body 0 msg (some existingParts))
    (hne : existingParts.isEmpty = false) :
    uploadFileToOSS env file metaId address =
      ossUploadAndComplete env file existingParts (.valid s) := by
  have hsess : getUploadSession env.stored env.now = (some s, .valid s) := by
    rw [hstored]
    unfold getUploadSession
    dsimp only
    rw [if_neg (not_lt.mpr hlive)]
  unfold uploadFileToOSS
  rw [hsess, hlist]
  simp [hne]

/-- Claim C3: resuming an interrupted multipart upload with a live
session and a list-parts response reporting parts 1..k skips parts 1..k
(reusing each recorded etag and counting their bytes), uploads exactly
parts k+1..totalParts, and completes with exactly parts 1..totalParts in
ascending part-number order; the local session record is deleted exactly
on success and preserved on every failure. -/
theorem uploadFileToOSS_resume_spec
    (env : OSSEnv) (file : FileDesc) (metaId address : String)
    (s : UploadSessionRec) (k : ℕ) (msg : String)
    (recEtag : ℕ → String) (recSize : ℕ → ℕ) (upEtag : ℕ → String)
    (finalKey : String) (cmsg : String)
    (hstored : env.stored = .valid s)
    (hlive : env.now - s.timestamp ≤ sessionMaxAge)
    (hk1 : 1 ≤ k)
    (hkt : k ≤ (file.size + MULTIPART_CHUNK_SIZE - 1) / MULTIPART_CHUNK_SIZE)
    (hlist : env.listParts = .body 0 msg (some ((List.range' 1 k).map
        (fun n => { partNumber := n, etag := recEtag n, size := recSize n })))) :
    ((∃ key, (uploadFileToOSS env file metaId address).result = .ok key) →
      (uploadFileToOSS env file metaId address).storeAfter = .absent) ∧
    ((∀ key, (uploadFileToOSS env file metaId address).result ≠ .ok key) →
      (uploadFileToOSS env file metaId address).storeAfter = .valid s) ∧
    ((∀ p, k + 1 ≤ p → p ≤ (file.size + MULTIPART_CHUNK_SIZE - 1) / MULTIPART_CHUNK_SIZE →
        env.uploadPart p = .body 0 "" (some (upEtag p))) →
      env.complete ((List.range' 1 ((file.size + MULTIPART_CHUNK_SIZE - 1) / MULTIPART_CHUNK_SIZE)).map
          (fun n => { partNumber := n
                      etag := if n ≤ k then recEtag n else upEtag n
                      size := partSizeAt file.size n })) = .body 0 cmsg (some finalKey) →
      (uploadFileToOSS env file metaId address).result = .ok finalKey ∧
      (uploadFileToOSS env file metaId address).uploadedPartNumbers =
        List.range' (k + 1) ((file.size + MULTIPART_CHUNK_SIZE - 1) / MULTIPART_CHUNK_SIZE - k) ∧
      (uploadFileToOSS env file metaId address).completeParts =
        some ((List.range' 1 ((file.size + MULTIPART_CHUNK_SIZE - 1) / MULTIPART_CHUNK_SIZE)).map
          (fun n => { partNumber := n
                      etag := if n ≤ k then recEtag n else upEtag n
                      size := partSizeAt file.size n })) ∧
      (uploadFileToOSS env file metaId address).uploadedBytes =
        ((List.range' 1 ((file.size + MULTIPART_CHUNK_SIZE - 1) / MULTIPART_CHUNK_SIZE)).map
          (fun p => partSizeAt file.size p)).sum ∧
      (uploadFileToOSS env file metaId address).storeAfter = .absent) := by
  have hne : (((List.range' 1 k).map
      (fun n => ({ partNumber := n, etag := recEtag n, size := recSize n } : UploadPart))).isEmpty) =
      false := by
    cases k with
    | zero => exact absurd hk1 (by omega)
    | succ k2 => rfl
  have heval := uploadFileToOSS_resume_eval env file metaId address s
    ((List.range' 1 k).map (fun n => { partNumber := n, etag := recEtag n, size := recSize n }))
    msg hstored hlive hlist hne
  have hstore := ossUploadAndComplete_store env file
    ((List.range' 1 k).map (fun n => { partNumber := n, etag := recEtag n, size := recSize n }))
    (.valid s)
  refine ⟨?_, ?_, ?_⟩
  · rw [heval]
    exact hstore.1
  · rw [heval]
    exact hstore.2
  · intro hup hcomp
    have hlk := fun p => lookupExistingPart_range k
      (fun n => { partNumber := n, etag := recEtag n, size := recSize n }) (fun n => rfl) p
    have hloop := ossPartLoop_ok env file.size
      ((List.range' 1 k).map (fun n => { partNumber := n, etag := recEtag n, size := recSize n }))
      upEtag
      (List.range' 1 ((file.size + MULTIPART_CHUNK_SIZE - 1) / MULTIPART_CHUNK_SIZE))
      (by
        intro p hp hnone
        have hmem := List.mem_range'_1.mp hp
        rw [hlk p] at hnone
        by_cases hpk : 1 ≤ p ∧ p ≤ k
        · rw [if_pos hpk] at hnone
          cases hnone
        · exact hup p (by omega) (by omega))
    have hparts_eq :
        (List.range' 1 ((file.size + MULTIPART_CHUNK_SIZE - 1) / MULTIPART_CHUNK_SIZE)).map
          (fun p => ({ partNumber := p
                       etag := (match lookupExistingPart
                           ((List.range' 1 k).map
                             (fun n => ({ partNumber := n, etag := recEtag n, size := recSize n } : UploadPart))) p with
                         | some ep => ep.etag
                         | none => upEtag p)
                       size := partSizeAt file.size p } : UploadPart)) =
        (List.range' 1 ((file.size + MULTIPART_CHUNK_SIZE - 1) / MULTIPART_CHUNK_SIZE)).map
          (fun n => { partNumber := n
                      etag := if n ≤ k then recEtag n else upEtag n
                      size := partSizeAt file.size n }) := by
      apply List.map_congr_left
      intro p hp
      have hmem := List.mem_range'_1.mp hp
      rw [hlk p]
      by_cases hpk : p ≤ k
      · rw [if_pos ⟨hmem.1, hpk⟩, if_pos hpk]
      · rw [if_neg (by omega), if_neg hpk]
    have hups_eq :
        (List.range' 1 ((file.size + MULTIPART_CHUNK_SIZE - 1) / MULTIPART_CHUNK_SIZE)).filter
          (fun p => (lookupExistingPart
            ((List.range' 1 k).map
              (fun n => ({ partNumber := n, etag := recEtag n, size := recSize n } : UploadPart))) p).isNone) =
        List.range' (k + 1) ((file.size + MULTIPART_CHUNK_SIZE - 1) / MULTIPART_CHUNK_SIZE - k) := by
      have hsplit : List.range' 1 ((file.size + MULTIPART_CHUNK_SIZE - 1) / MULTIPART_CHUNK_SIZE) =
          List.range' 1 k ++
          List.range' (k + 1) ((file.size + MULTIPART_CHUNK_SIZE - 1) / MULTIPART_CHUNK_SIZE - k) := by
        have h := List.range'_append 1 k
          ((file.size + MULTIPART_CHUNK_SIZE - 1) / MULTIPART_CHUNK_SIZE - k) 1
        simp only [Nat.one_mul] at h
        rw [show 1 + k = k + 1 from by omega] at h
        rw [show (file.size + MULTIPART_CHUNK_SIZE - 1) / MULTIPART_CHUNK_SIZE - k + k =
            (file.size + MULTIPART_CHUNK_SIZE - 1) / MULTIPART_CHUNK_SIZE from by omega] at h
        exact h.symm
      rw [hsplit, List.filter_append]
      have h1 : (List.range' 1 k).filter
          (fun p => (lookupExistingPart
            ((List.range' 1 k).map
              (fun n => ({ partNumber := n, etag := recEtag n, size := recSize n } : UploadPart))) p).isNone) = [] := by
        apply List.filter_eq_nil_iff.mpr
        intro p hp
        have hmem := List.mem_range'_1.mp hp
        rw [hlk p, if_pos ⟨hmem.1, by omega⟩]
        simp
      have h2 : (List.range' (k + 1) ((file.size + MULTIPART_CHUNK_SIZE - 1) / MULTIPART_CHUNK_SIZE - k)).filter
          (fun p => (lookupExistingPart
            ((List.range' 1 k).map
              (fun n => ({ partNumber := n, etag := recEtag n, size := recSize n } : UploadPart))) p).isNone) =
          List.range' (k + 1) ((file.size + MULTIPART_CHUNK_SIZE - 1) / MULTIPART_CHUNK_SIZE - k) := by
        apply List.filter_eq_self.mpr
        intro p hp
        have hmem := List.mem_range'_1.mp hp
        rw [hlk p, if_neg (by omega)]
        simp
      rw [h1, h2, List.nil_append]
    rw [hparts_eq, hups_eq] at hloop
    have hsorteq :
        ((List.range' 1 ((file.size + MULTIPART_CHUNK_SIZE - 1) / MULTIPART_CHUNK_SIZE)).map
          (fun n => ({ partNumber := n
                       etag := if n ≤ k then recEtag n else upEtag n
                       size := partSizeAt file.size n } : UploadPart))).insertionSort
          (fun a b => a.partNumber ≤ b.partNumber) =
        (List.range' 1 ((file.size + MULTIPART_CHUNK_SIZE - 1) / MULTIPART_CHUNK_SIZE)).map
          (fun n => { partNumber := n
                      etag := if n ≤ k then recEtag n else upEtag n
                      size := partSizeAt file.size n }) := by
      apply List.Sorted.insertionSort_eq
      exact List.Pairwise.map _ (fun a b hab => le_of_lt hab)
        (List.pairwise_lt_range' 1 ((file.size + MULTIPART_CHUNK_SIZE - 1) / MULTIPART_CHUNK_SIZE))
    have hsucc := ossUploadAndComplete_success env file
      ((List.range' 1 k).map (fun n => { partNumber := n, etag := recEtag n, size := recSize n }))
      (.valid s)
      ((List.range' 1 ((file.size + MULTIPART_CHUNK_SIZE - 1) / MULTIPART_CHUNK_SIZE)).map
        (fun n => { partNumber := n
                    etag := if n ≤ k then recEtag n else upEtag n
                    size := partSizeAt file.size n }))
      (List.range' (k + 1) ((file.size + MULTIPART_CHUNK_SIZE - 1) / MULTIPART_CHUNK_SIZE - k))
      (((List.range' 1 ((file.size + MULTIPART_CHUNK_SIZE - 1) / MULTIPART_CHUNK_SIZE)).map
        (fun p => partSizeAt file.size p)).sum)
      cmsg finalKey hloop hsorteq hcomp
    rw [heval]
    exact ⟨hsucc.1, hsucc.2.2.1, hsucc.2.2.2.1, hsucc.2.2.2.2, hsucc.2.1⟩

/-- Witness for C3: a two-part file (one chunk plus one byte) resumed
after part 1 completes and returns the storage key. -/
theorem uploadFileToOSS_resume_spec_witness :
    (uploadFileToOSS
      { stored := .valid ⟨"uid", "key", "f", 1048577, "m", "a", 0⟩
        now := 0
        listParts := .body 0 "" (some [⟨1, "e1", 1048576⟩])
        initiate := .netError "unused"
        uploadPart := fun _ => .body 0 "" (some "e2")
        complete := fun _ => .body 0 "" (some "KEY") }
      ⟨"f", 1048577⟩ "m" "a").result = .ok "KEY" := by
  have h := (uploadFileToOSS_resume_spec
    { stored := .valid ⟨"uid", "key", "f", 1048577, "m", "a", 0⟩
      now := 0
      listParts := .body 0 "" (some [⟨1, "e1", 1048576⟩])
      initiate := .netError "unused"
      uploadPart := fun _ => .body 0 "" (some "e2")
      complete := fun _ => .body 0 "" (some "KEY") }
    ⟨"f", 1048577⟩ "m" "a"
    ⟨"uid", "key", "f", 1048577, "m", "a", 0⟩ 1 ""
    (fun _ => "e1") (fun _ => 1048576) (fun _ => "e2") "KEY" ""
    rfl (by norm_num [sessionMaxAge]) (by norm_num)
    (by norm_num [MULTIPART_CHUNK_SIZE]) rfl).2.2
    (fun _ _ _ => rfl) rfl
  exact h.1
